import Mathlib

/-!
Verification of the Bitcoin transaction builder
(`app/bitcoin_transaction_builder.py`).

The development shallowly embeds the builder: byte strings are `List Nat`
with every element below 256, Python `int` is `Int` (or `Nat` where the
source value is a count), fallible operations return `Except BuilderError`,
and the double-SHA-256 digest used by `create_signature_hash` is a full
executable SHA-256 implementation validated against the standard test
vectors below.
-/

/-! ## SHA-256 (as used by `hashlib.sha256`) -/

/-- Truncate to a 32-bit word. -/
def w32 (n : Nat) : Nat := n % 4294967296

/-- 32-bit right rotation (argument assumed below 2^32). -/
def rotr32 (x n : Nat) : Nat :=
  (x >>> n) ||| ((x % (2 ^ n)) <<< (32 - n))

/-- The 64 SHA-256 round constants. -/
def sha256K : List Nat :=
  [1116352408, 1899447441, 3049323471, 3921009573,
   961987163, 1508970993, 2453635748, 2870763221,
   3624381080, 310598401, 607225278, 1426881987,
   1925078388, 2162078206, 2614888103, 3248222580,
   3835390401, 4022224774, 264347078, 604807628,
   770255983, 1249150122, 1555081692, 1996064986,
   2554220882, 2821834349, 2952996808, 3210313671,
   3336571891, 3584528711, 113926993, 338241895,
   666307205, 773529912, 1294757372, 1396182291,
   1695183700, 1986661051, 2177026350, 2456956037,
   2730485921, 2820302411, 3259730800, 3345764771,
   3516065817, 3600352804, 4094571909, 275423344,
   430227734, 506948616, 659060556, 883997877,
   958139571, 1322822218, 1537002063, 1747873779,
   1955562222, 2024104815, 2227730452, 2361852424,
   2428436474, 2756734187, 3204031479, 3329325298]

/-- SHA-256 hash state: eight 32-bit working words. -/
structure Sha256State where
  a : Nat
  b : Nat
  c : Nat
  d : Nat
  e : Nat
  f : Nat
  g : Nat
  h : Nat
deriving Repr, DecidableEq

/-- The SHA-256 initial hash value. -/
def sha256Init : Sha256State :=
  ⟨1779033703, 3144134277, 1013904242, 2773480762,
   1359893119, 2600822924, 528734635, 1541459225⟩

/-- Big-endian 4-byte groups of a byte list read as 32-bit words. -/
def toWordsBE : List Nat → List Nat
  | b0 :: b1 :: b2 :: b3 :: rest =>
      (b0 * 16777216 + b1 * 65536 + b2 * 256 + b3) :: toWordsBE rest
  | _ => []

/-- Message-schedule extension: push the next word onto a schedule array. -/
def scheduleStep (w : Array Nat) : Array Nat :=
  let t := w.size
  let x15 := w.getD (t - 15) 0
  let x2 := w.getD (t - 2) 0
  let s0 := rotr32 x15 7 ^^^ rotr32 x15 18 ^^^ (x15 >>> 3)
  let s1 := rotr32 x2 17 ^^^ rotr32 x2 19 ^^^ (x2 >>> 10)
  w.push (w32 (w.getD (t - 16) 0 + s0 + w.getD (t - 7) 0 + s1))

/-- The full 64-word message schedule of one block. -/
def sha256Schedule (block : List Nat) : Array Nat :=
  (List.range 48).foldl (fun w _ => scheduleStep w) (toWordsBE block).toArray

/-- One SHA-256 compression round. -/
def sha256Round (ws : Array Nat) (s : Sha256State) (t : Nat) : Sha256State :=
  let s1 := rotr32 s.e 6 ^^^ rotr32 s.e 11 ^^^ rotr32 s.e 25
  let ch := (s.e &&& s.f) ^^^ ((s.e ^^^ 4294967295) &&& s.g)
  let temp1 := w32 (s.h + s1 + ch + sha256K.getD t 0 + ws.getD t 0)
  let s0 := rotr32 s.a 2 ^^^ rotr32 s.a 13 ^^^ rotr32 s.a 22
  let maj := (s.a &&& s.b) ^^^ (s.a &&& s.c) ^^^ (s.b &&& s.c)
  let temp2 := w32 (s0 + maj)
  ⟨w32 (temp1 + temp2), s.a, s.b, s.c, w32 (s.d + temp1), s.e, s.f, s.g⟩

/-- Compress one 64-byte block into the running hash state. -/
def sha256Compress (s : Sha256State) (block : List Nat) : Sha256State :=
  let ws := sha256Schedule block
  let r := (List.range 64).foldl (sha256Round ws) s
  ⟨w32 (s.a + r.a), w32 (s.b + r.b), w32 (s.c + r.c), w32 (s.d + r.d),
   w32 (s.e + r.e), w32 (s.f + r.f), w32 (s.g + r.g), w32 (s.h + r.h)⟩

/-- SHA-256 padding: 128, zeros to 56 mod 64, then the 64-bit big-endian
bit length. -/
def sha256Pad (msg : List Nat) : List Nat :=
  let L := msg.length
  let zeros := (119 - L % 64) % 64
  let bits := L * 8
  msg ++ [128] ++ List.replicate zeros 0 ++
    [bits >>> 56 % 256, bits >>> 48 % 256, bits >>> 40 % 256, bits >>> 32 % 256,
     bits >>> 24 % 256, bits >>> 16 % 256, bits >>> 8 % 256, bits % 256]

/-- Take 64-byte chunks, `k` of them, off the front of a byte list. -/
def chunksAux : Nat → List Nat → List (List Nat)
  | 0, _ => []
  | k + 1, l => l.take 64 :: chunksAux k (l.drop 64)

/-- Split a byte list into 64-byte chunks. -/
def chunks64 (l : List Nat) : List (List Nat) :=
  chunksAux ((l.length + 63) / 64) l

/-- A 32-bit word as 4 big-endian bytes. -/
def be32 (x : Nat) : List Nat :=
  [x / 16777216 % 256, x / 65536 % 256, x / 256 % 256, x % 256]

/-- The digest bytes of a final hash state. -/
def sha256Out (s : Sha256State) : List Nat :=
  be32 s.a ++ be32 s.b ++ be32 s.c ++ be32 s.d ++
  be32 s.e ++ be32 s.f ++ be32 s.g ++ be32 s.h

/-- SHA-256 of a byte string, as 32 digest bytes. -/
def sha256 (msg : List Nat) : List Nat :=
  sha256Out ((chunks64 (sha256Pad msg)).foldl sha256Compress sha256Init)

/-- A SHA-256 digest is exactly 32 bytes. -/
theorem sha256_length (msg : List Nat) : (sha256 msg).length = 32 := by
  simp [sha256, sha256Out, be32]

set_option maxRecDepth 10000 in
/-- FIPS 180-4 test vector: SHA-256 of the empty string. -/
theorem sha256_empty_vector :
    sha256 [] =
      [227, 176, 196, 66, 152, 252, 28, 20,
       154, 251, 244, 200, 153, 111, 185, 36,
       39, 174, 65, 228, 100, 155, 147, 76,
       164, 149, 153, 27, 120, 82, 184, 85] := by
  decide

set_option maxRecDepth 10000 in
/-- FIPS 180-4 test vector: SHA-256 of "abc". -/
theorem sha256_abc_vector :
    sha256 [97, 98, 99] =
      [186, 120, 22, 191, 143, 1, 207, 234,
       65, 65, 64, 222, 93, 174, 34, 35,
       176, 3, 97, 163, 150, 23, 122, 156,
       180, 16, 255, 97, 242, 0, 21, 173] := by
  decide

/-! ## Byte-level helpers shared by the builder -/

/-- Errors of the builder pipeline (`ValueError` for insufficient funds,
`IndexError`, the `ecdsa` key check, and the overflow errors of Python's
`int.to_bytes`, `bytes([...])` and `struct.pack`). -/
inductive BuilderError where
  | insufficientFunds (available required : Int)
  | indexOutOfRange
  | invalidKey
  | byteOverflow
  | byteValueError
  | structError
deriving Repr, DecidableEq

/-- Python `n.to_bytes(1, "little")`: one byte, `OverflowError` above 255. -/
def natToByte (n : Nat) : Except BuilderError (List Nat) :=
  if n ≤ 255 then .ok [n] else .error .byteOverflow

/-- Python `bytes([n])`: one byte, `ValueError` outside 0..255. -/
def bytesSingleton (n : Nat) : Except BuilderError (List Nat) :=
  if n ≤ 255 then .ok [n] else .error .byteValueError

/-- The 4 little-endian bytes of a 32-bit value. -/
def packU32Bytes (n : Nat) : List Nat :=
  [n % 256, n / 256 % 256, n / 65536 % 256, n / 16777216 % 256]

/-- Python `struct.pack("<I", n)`: 4 little-endian bytes, `struct.error`
outside 32 bits. -/
def packU32 (n : Nat) : Except BuilderError (List Nat) :=
  if n < 4294967296 then .ok (packU32Bytes n) else .error .structError

/-- UTF-8 encoding of one code point. -/
def utf8Bytes (n : Nat) : List Nat :=
  if n < 128 then [n]
  else if n < 2048 then [192 + n / 64, 128 + n % 64]
  else if n < 65536 then [224 + n / 4096, 128 + n / 64 % 64, 128 + n % 64]
  else [240 + n / 262144, 128 + n / 4096 % 64, 128 + n / 64 % 64, 128 + n % 64]

/-- Python `s.encode()`: the UTF-8 bytes of a string. -/
def strEncode (s : String) : List Nat :=
  (s.data.map fun c => utf8Bytes c.toNat).flatten

/-- Python list-index resolution: negative indices count from the end of
the list; `none` means `IndexError`. -/
def pyIndex (len : Nat) (i : Int) : Option Nat :=
  let j : Int := if i < 0 then i + len else i
  if 0 ≤ j ∧ j < (len : Int) then some j.toNat else none

/-- Python `bytes.hex()` digit (lowercase). -/
def hexDigit (n : Nat) : Char :=
  if n < 10 then Char.ofNat (48 + n) else Char.ofNat (87 + n)

/-- Python `bytes.hex()`: lowercase hexadecimal text. -/
def bytesHex (bs : List Nat) : String :=
  String.mk (bs.flatMap fun byte => [hexDigit (byte / 16), hexDigit (byte % 16)])

/-! ## Entity model (`UTXO`, `TransactionInput`, `TransactionOutput`) -/

/-- `UTXO`: txid, output index, amount in satoshis, locking script. -/
structure UTXO where
  txid : String
  vout : Nat
  amount : Int
  script_pubkey : String
deriving Repr, DecidableEq

/-- `TransactionInput`: derived from a UTXO; `script_sig` is `None` until
the input is signed; `sequence` defaults to `4294967295`. -/
structure TransactionInput where
  txid : String
  vout : Nat
  script_sig : Option (List Nat)
  sequence : Nat
deriving Repr, DecidableEq

instance : Inhabited TransactionInput := ⟨⟨"", 0, none, 0⟩⟩

/-- The `TransactionInput.__init__` constructor from a UTXO. -/
def TransactionInput.ofUTXO (u : UTXO) : TransactionInput :=
  ⟨u.txid, u.vout, none, 4294967295⟩

/-- `TransactionOutput`: amount in satoshis and locking script. -/
structure TransactionOutput where
  amount : Int
  script_pubkey : String
deriving Repr, DecidableEq

/-- `BitcoinTransactionBuilder` state: ordered inputs and outputs, a fee
rate, and an optional change address. -/
structure BitcoinTransactionBuilder where
  inputs : List TransactionInput
  outputs : List TransactionOutput
  fee_rate : Int
  change_address : Option String
deriving Repr, DecidableEq

/-- `BitcoinTransactionBuilder.__init__`: empty lists, fee rate 1, no
change address. -/
def newBuilder : BitcoinTransactionBuilder := ⟨[], [], 1, none⟩

/-! ## Coin selection (`select_utxos`) -/

/-- Sum of the amounts of a UTXO list. -/
def sumAmounts (l : List UTXO) : Int := (l.map UTXO.amount).sum

/-- Stable insertion of a UTXO into a descending-by-amount list: the new
element goes in front of the first element whose amount does not exceed
its own, so among equal amounts earlier elements stay earlier. -/
def insertDesc (u : UTXO) : List UTXO → List UTXO
  | [] => [u]
  | v :: rest => if v.amount ≤ u.amount then u :: v :: rest else v :: insertDesc u rest

/-- Python `sorted(available_utxos, key=lambda u: u.amount, reverse=True)`:
stable sort by amount descending. -/
def sortDesc : List UTXO → List UTXO
  | [] => []
  | u :: rest => insertDesc u (sortDesc rest)

/-- The accumulation loop of `select_utxos`: append UTXOs in order, adding
their amounts to the running total, and stop as soon as the total reaches
the target; returns the accumulated list and the final total. -/
def selectLoop (target : Int) : List UTXO → Int → List UTXO × Int
  | [], total => ([], total)
  | u :: rest, total =>
    let totalNext := total + u.amount
    if target ≤ totalNext then ([u], totalNext)
    else
      let r := selectLoop target rest totalNext
      (u :: r.1, r.2)

/-- `BitcoinTransactionBuilder.select_utxos`: sort descending, accumulate
until the target is reached, fail with insufficient funds when even the
whole list falls short. -/
def select_utxos (available_utxos : List UTXO) (target_amount : Int) :
    Except BuilderError (List UTXO) :=
  let r := selectLoop target_amount (sortDesc available_utxos) 0
  if r.2 < target_amount then
    .error (.insufficientFunds r.2 target_amount)
  else
    .ok r.1

/-! ## Builder mutators, fee, change -/

/-- `BitcoinTransactionBuilder.add_input`. -/
def add_input (b : BitcoinTransactionBuilder) (u : UTXO) :
    BitcoinTransactionBuilder :=
  { b with inputs := b.inputs ++ [TransactionInput.ofUTXO u] }

/-- `BitcoinTransactionBuilder.add_output`. -/
def add_output (b : BitcoinTransactionBuilder) (amount : Int)
    (script_pubkey : String) : BitcoinTransactionBuilder :=
  { b with outputs := b.outputs ++ [⟨amount, script_pubkey⟩] }

/-- `BitcoinTransactionBuilder.calculate_fee`: estimated vsize times fee
rate. -/
def calculate_fee (b : BitcoinTransactionBuilder) : Int :=
  ((10 + b.inputs.length * 68 + b.outputs.length * 34 : Nat) : Int) * b.fee_rate

/-- Python truthiness of the optional change address: `None` and the
empty string are falsy. -/
def addrTruthy : Option String → Bool
  | none => false
  | some s => s != ""

/-- `BitcoinTransactionBuilder.add_change_output`: append a change output
when the change reaches the 546-satoshi dust threshold and the change
address is truthy. -/
def add_change_output (b : BitcoinTransactionBuilder)
    (input_amount output_amount fee : Int) : BitcoinTransactionBuilder :=
  let change_amount := input_amount - output_amount - fee
  if 546 ≤ change_amount ∧ addrTruthy b.change_address then
    add_output b change_amount (b.change_address.getD "")
  else b

/-! ## Digest and signing -/

/-- Abstract interface of the external `ecdsa` library: deterministic DER
signing of a digest and public-key derivation (`SECP256k1`, `to_string`
form). The library is an external collaborator of the repository; its
`from_string` key-length check (exactly 32 bytes) is modelled in
`sign_input` itself. -/
structure ECDSA where
  sign_digest : List Nat → List Nat → List Nat
  pubkey : List Nat → List Nat

set_option linter.unusedVariables false in
/-- `BitcoinTransactionBuilder.create_signature_hash`: double SHA-256 of
version, input count, the selected input's txid bytes, its vout, and the
output count (evaluation order as in the Python expression: counts and
index accesses can each fail). -/
def create_signature_hash (b : BitcoinTransactionBuilder) (input_index : Int)
    (sig_hash_type : Nat) : Except BuilderError (List Nat) :=
  match packU32 1 with
  | .error e => .error e
  | .ok verBytes =>
  match natToByte b.inputs.length with
  | .error e => .error e
  | .ok inCount =>
  match pyIndex b.inputs.length input_index with
  | none => .error .indexOutOfRange
  | some j =>
  let inp := b.inputs.getD j default
  match packU32 inp.vout with
  | .error e => .error e
  | .ok voutBytes =>
  match natToByte b.outputs.length with
  | .error e => .error e
  | .ok outCount =>
  .ok (sha256 (sha256
    (verBytes ++ inCount ++ strEncode inp.txid ++ voutBytes ++ outCount)))

/-- `BitcoinTransactionBuilder.sign_input`: digest, key-length check, DER
signature plus one sighash byte, then the length-prefixed unlocking script
stored on the indexed input. -/
def sign_input (E : ECDSA) (b : BitcoinTransactionBuilder) (input_index : Int)
    (private_key : List Nat) (sig_hash_type : Nat) :
    Except BuilderError BitcoinTransactionBuilder :=
  match create_signature_hash b input_index sig_hash_type with
  | .error e => .error e
  | .ok sig_hash =>
  if private_key.length = 32 then
    let sigDer := E.sign_digest private_key sig_hash
    match bytesSingleton sig_hash_type with
    | .error e => .error e
    | .ok shtByte =>
    let signature := sigDer ++ shtByte
    let public_key := E.pubkey private_key
    match natToByte signature.length with
    | .error e => .error e
    | .ok sigLen =>
    match natToByte public_key.length with
    | .error e => .error e
    | .ok pkLen =>
    let script := sigLen ++ signature ++ pkLen ++ public_key
    match pyIndex b.inputs.length input_index with
    | some j =>
        let old := b.inputs.getD j default
        Except.ok { b with inputs := b.inputs.set j { old with script_sig := some script } }
    | none => Except.error BuilderError.indexOutOfRange
  else
    Except.error BuilderError.invalidKey

/-! ## Assembly (`build`) -/

/-- One input record of the assembled transaction. -/
structure TxInRecord where
  txid : String
  vout : Nat
  script_sig : String
  sequence : Nat
deriving Repr, DecidableEq

/-- One output record of the assembled transaction. -/
structure TxOutRecord where
  amount : Int
  script_pubkey : String
deriving Repr, DecidableEq

/-- The assembled transaction record. -/
structure TxRecord where
  version : Nat
  inputs : List TxInRecord
  outputs : List TxOutRecord
  locktime : Nat
deriving Repr, DecidableEq

/-- `BitcoinTransactionBuilder.build`: fold the builder state into the
final record; unlocking scripts are rendered as lowercase hex, the empty
string when absent. -/
def build (b : BitcoinTransactionBuilder) : TxRecord :=
  { version := 1,
    inputs := b.inputs.map fun inp =>
      { txid := inp.txid,
        vout := inp.vout,
        script_sig := match inp.script_sig with
          | some bs => bytesHex bs
          | none => "",
        sequence := inp.sequence },
    outputs := b.outputs.map fun o =>
      { amount := o.amount, script_pubkey := o.script_pubkey },
    locktime := 0 }

deriving instance DecidableEq for Except

/-! ## Lemmas about the coin-selection loop -/

/-- Inserting into the descending list adds the inserted amount to the sum. -/
theorem insertDesc_sum (u : UTXO) (l : List UTXO) :
    sumAmounts (insertDesc u l) = u.amount + sumAmounts l := by
  induction l with
  | nil => simp [insertDesc, sumAmounts]
  | cons v rest ih =>
    by_cases h : v.amount ≤ u.amount
    · simp [insertDesc, h, sumAmounts]
    · simp only [insertDesc, if_neg h, sumAmounts, List.map_cons, List.sum_cons] at *
      omega

/-- Sorting preserves the sum of amounts. -/
theorem sortDesc_sum (l : List UTXO) : sumAmounts (sortDesc l) = sumAmounts l := by
  induction l with
  | nil => rfl
  | cons u rest ih =>
    simp only [sortDesc]
    rw [insertDesc_sum, ih]
    simp [sumAmounts]

/-- Members of the inserted list are the new element or old members. -/
theorem insertDesc_mem {x u : UTXO} {l : List UTXO} (h : x ∈ insertDesc u l) :
    x = u ∨ x ∈ l := by
  induction l with
  | nil =>
    simp [insertDesc] at h
    exact Or.inl h
  | cons v rest ih =>
    by_cases hc : v.amount ≤ u.amount
    · simp only [insertDesc, if_pos hc, List.mem_cons] at h
      rcases h with h | h | h
      · exact Or.inl h
      · exact Or.inr (by simp [h])
      · exact Or.inr (by simp [h])
    · simp only [insertDesc, if_neg hc, List.mem_cons] at h
      rcases h with h | h
      · exact Or.inr (by simp [h])
      · rcases ih h with h | h
        · exact Or.inl h
        · exact Or.inr (by simp [h])

/-- Members of the sorted list are members of the original list. -/
theorem sortDesc_mem {x : UTXO} {l : List UTXO} (h : x ∈ sortDesc l) : x ∈ l := by
  induction l with
  | nil => simp [sortDesc] at h
  | cons u rest ih =>
    rcases insertDesc_mem (by simpa [sortDesc] using h) with h' | h'
    · simp [h']
    · exact List.mem_cons_of_mem _ (ih h')

/-- The selection loop returns a prefix of its list. -/
theorem selectLoop_take (target : Int) :
    ∀ (l : List UTXO) (total : Int), ∃ k, (selectLoop target l total).1 = l.take k := by
  intro l
  induction l with
  | nil => intro total; exact ⟨0, rfl⟩
  | cons u rest ih =>
    intro total
    by_cases h : target ≤ total + u.amount
    · exact ⟨1, by simp [selectLoop, h]⟩
    · obtain ⟨k, hk⟩ := ih (total + u.amount)
      exact ⟨k + 1, by simp [selectLoop, h, hk]⟩

/-- The final total of the selection loop is the initial total plus the
sum of the accumulated selection. -/
theorem selectLoop_sum (target : Int) :
    ∀ (l : List UTXO) (total : Int),
      (selectLoop target l total).2 = total + sumAmounts (selectLoop target l total).1 := by
  intro l
  induction l with
  | nil => intro total; simp [selectLoop, sumAmounts]
  | cons u rest ih =>
    intro total
    by_cases h : target ≤ total + u.amount
    · simp [selectLoop, h, sumAmounts]
    · simp only [selectLoop, if_neg h, sumAmounts, List.map_cons, List.sum_cons]
      have := ih (total + u.amount)
      simp only [sumAmounts] at this
      omega

/-- When the whole list suffices, the selection loop reaches the target. -/
theorem selectLoop_reach (target : Int) :
    ∀ (l : List UTXO) (total : Int), target ≤ total + sumAmounts l →
      target ≤ (selectLoop target l total).2 := by
  intro l
  induction l with
  | nil => intro total h; simpa [selectLoop, sumAmounts] using h
  | cons u rest ih =>
    intro total h
    by_cases hc : target ≤ total + u.amount
    · simp [selectLoop, hc]
    · simp only [selectLoop, if_neg hc]
      refine ih (total + u.amount) ?_
      simp only [sumAmounts, List.map_cons, List.sum_cons] at h ⊢
      omega

/-- Greedy minimality of the loop: when the loop starts strictly below the
target and ends at or above it, dropping the last accumulated element
leaves the sum strictly below the target. -/
theorem selectLoop_minimal (target : Int) :
    ∀ (l : List UTXO) (total : Int), total < target →
      target ≤ (selectLoop target l total).2 →
      total + sumAmounts ((selectLoop target l total).1).dropLast < target := by
  intro l
  induction l with
  | nil =>
    intro total hlt hge
    simp only [selectLoop] at hge
    omega
  | cons u rest ih =>
    intro total hlt hge
    by_cases hc : target ≤ total + u.amount
    · simpa [selectLoop, hc, sumAmounts] using hlt
    · simp only [selectLoop, if_neg hc] at hge ⊢
      rcases hr : (selectLoop target rest (total + u.amount)).1 with _ | ⟨a, t⟩
      · exfalso
        have hsum := selectLoop_sum target rest (total + u.amount)
        rw [hr] at hsum
        simp only [sumAmounts, List.map_nil, List.sum_nil, add_zero] at hsum
        omega
      · have hmin := ih (total + u.amount) (by omega) hge
        rw [hr] at hmin
        simp only [List.dropLast_cons₂, sumAmounts, List.map_cons, List.sum_cons] at hmin ⊢
        omega

/-- With non-negative amounts, a loop that can never reach the target
accumulates the entire list. -/
theorem selectLoop_exhaust (target : Int) :
    ∀ (l : List UTXO) (total : Int), (∀ u ∈ l, 0 ≤ u.amount) →
      total + sumAmounts l < target →
      selectLoop target l total = (l, total + sumAmounts l) := by
  intro l
  induction l with
  | nil => intro total _ _; simp [selectLoop, sumAmounts]
  | cons u rest ih =>
    intro total hpos hlt
    have hrest : 0 ≤ sumAmounts rest := by
      refine List.sum_nonneg ?_
      intro x hx
      simp only [List.mem_map] at hx
      obtain ⟨v, hv, rfl⟩ := hx
      exact hpos v (List.mem_cons_of_mem _ hv)
    have hsum : sumAmounts (u :: rest) = u.amount + sumAmounts rest := by
      simp [sumAmounts]
    have hc : ¬ target ≤ total + u.amount := by omega
    have := ih (total + u.amount) (fun v hv => hpos v (List.mem_cons_of_mem _ hv)) (by omega)
    simp only [selectLoop, if_neg hc, this, Prod.mk.injEq]
    exact ⟨trivial, by omega⟩

/-! ## Claim theorems: coin selection -/

/-- C1 counterexample input: a single UTXO of amount 5. -/
def cexUTXO : UTXO := ⟨"t", 0, 5, "pk"⟩

/-- C1, counterexample to the claim as stated: with target 0 (allowed by
the claim, whose quantification includes target = 0) and one available
UTXO of amount 5, `select_utxos` still selects that UTXO — the loop body
appends before testing the threshold — and removing the last-accumulated
element leaves sum 0, which is not strictly below the target 0. -/
theorem select_utxos_target_zero_cex :
    select_utxos [cexUTXO] 0 = Except.ok [cexUTXO] ∧
    ¬ sumAmounts (List.dropLast [cexUTXO]) < 0 := by
  decide

/-- C1 (amended: the greedy-minimality conjunct holds for positive
targets; for targets ≤ 0 a non-empty candidate list still contributes its
first sorted UTXO, so the removal test fails there): whenever the total
available amount reaches the target, `select_utxos` succeeds with a
prefix of the amount-descending sort whose sum reaches the target, and —
for target ≥ 1 — removing the last-accumulated element drops the sum
strictly below the target. -/
theorem select_utxos_greedy (l : List UTXO) (target : Int)
    (h : target ≤ sumAmounts l) :
    ∃ sel, select_utxos l target = Except.ok sel ∧
      (∃ k, sel = (sortDesc l).take k) ∧
      target ≤ sumAmounts sel ∧
      (1 ≤ target → sumAmounts sel.dropLast < target) := by
  have hreach : target ≤ (selectLoop target (sortDesc l) 0).2 :=
    selectLoop_reach target (sortDesc l) 0 (by rw [zero_add, sortDesc_sum]; exact h)
  refine ⟨(selectLoop target (sortDesc l) 0).1, ?_, ?_, ?_, ?_⟩
  · simp only [select_utxos]
    rw [if_neg (by omega)]
  · exact selectLoop_take target (sortDesc l) 0
  · have := selectLoop_sum target (sortDesc l) 0
    omega
  · intro hpos
    have := selectLoop_minimal target (sortDesc l) 0 (by omega) hreach
    omega

/-- Test UTXOs mirroring the repository's test fixtures. -/
def utxoA : UTXO := ⟨"abc123def456", 0, 100000, "s1"⟩

/-- Second test UTXO. -/
def utxoB : UTXO := ⟨"def456abc123", 1, 200000, "s2"⟩

/-- C1 witness: the amended theorem applied to the two test UTXOs with
target 150000. -/
theorem select_utxos_greedy_witness :
    ∃ sel, select_utxos [utxoA, utxoB] 150000 = Except.ok sel ∧
      (∃ k, sel = (sortDesc [utxoA, utxoB]).take k) ∧
      (150000 : Int) ≤ sumAmounts sel ∧
      ((1 : Int) ≤ 150000 → sumAmounts sel.dropLast < 150000) :=
  select_utxos_greedy [utxoA, utxoB] 150000 (by decide)

/-- C2: when the total available amount is strictly below the target,
`select_utxos` fails with `InsufficientFunds` carrying the available
total and the required target. It returns no selection, and — being a
pure function of its arguments, exactly as the Python method, which
reads but never writes `self` or the candidate list — leaves the
candidate list and the builder state untouched. -/
theorem select_utxos_insufficient (l : List UTXO) (target : Int)
    (hpos : ∀ u ∈ l, 0 ≤ u.amount) (hlt : sumAmounts l < target) :
    select_utxos l target =
      Except.error (BuilderError.insufficientFunds (sumAmounts l) target) := by
  have hmem : ∀ u ∈ sortDesc l, 0 ≤ u.amount := fun u hu => hpos u (sortDesc_mem hu)
  have hex := selectLoop_exhaust target (sortDesc l) 0 hmem
    (by rw [zero_add, sortDesc_sum]; exact hlt)
  simp only [select_utxos, hex, zero_add, sortDesc_sum]
  rw [if_pos hlt]

/-- C2 witness: the spec's own example — UTXOs of 100000 and 200000
satoshis against a target of 1000000. -/
theorem select_utxos_insufficient_witness :
    select_utxos [utxoA, utxoB] 1000000 =
      Except.error (BuilderError.insufficientFunds 300000 1000000) := by
  have h := select_utxos_insufficient [utxoA, utxoB] 1000000 (by decide) (by decide)
  have hs : sumAmounts [utxoA, utxoB] = 300000 := by decide
  rw [hs] at h
  exact h

/-! ## Claim theorems: fee, change policy, assembly -/

/-- C5: `calculate_fee` is total and returns exactly
`(10 + 68 * input_count + 34 * output_count) * fee_rate` satoshis; with
one input, one output, and the default fee rate 1 the fee is 112. -/
theorem calculate_fee_spec :
    (∀ b : BitcoinTransactionBuilder,
      calculate_fee b =
        (10 + 68 * (b.inputs.length : Int) + 34 * (b.outputs.length : Int)) *
          b.fee_rate) ∧
    calculate_fee (add_output (add_input newBuilder utxoA) 50000 ("spk")) = 112 := by
  constructor
  · intro b
    simp only [calculate_fee]
    push_cast
    ring
  · decide

/-- A builder whose change address is the empty string: configured, but
falsy for Python's `if ... and self.change_address` test. -/
def emptyAddrBuilder : BitcoinTransactionBuilder := ⟨[], [], 1, some ""⟩

/-- C6, counterexample to the claim as stated: with the change address
configured as the empty string, a change of 39000 ≥ 546 appends nothing,
because the Python condition `change_amount >= 546 and self.change_address`
treats the empty string as falsy. -/
theorem add_change_output_empty_addr_cex :
    (add_change_output emptyAddrBuilder 100000 60000 1000).outputs = [] ∧
    emptyAddrBuilder.change_address ≠ none ∧
    (546 : Int) ≤ 100000 - 60000 - 1000 := by
  decide

/-- A builder with a usable (non-empty) change address. -/
def addrBuilder : BitcoinTransactionBuilder := ⟨[], [], 1, some "addr"⟩

/-- C6 (amended: the appended-iff condition requires the configured
change address to be non-empty, Python truthiness, not merely present):
`add_change_output` appends exactly one output of the (possibly negative)
change `input - output - fee` to the change address iff the change is at
least the 546-satoshi dust threshold and the change address is truthy;
otherwise the builder is unchanged, and the function is total, so it
never raises. The spec's two examples are included: (100000, 60000, 1000)
appends one 39000 output; (1000, 500, 400) appends nothing. -/
theorem add_change_output_spec :
    (∀ (b : BitcoinTransactionBuilder) (ia oa fee : Int),
      add_change_output b ia oa fee =
        if 546 ≤ ia - oa - fee ∧ addrTruthy b.change_address then
          { b with outputs := b.outputs ++ [⟨ia - oa - fee, b.change_address.getD ""⟩] }
        else b) ∧
    (add_change_output addrBuilder 100000 60000 1000).outputs = [⟨39000, "addr"⟩] ∧
    (add_change_output addrBuilder 1000 500 400).outputs = [] := by
  refine ⟨fun b ia oa fee => rfl, ?_, ?_⟩ <;> decide

/-- C8: `build` is a total pure function: it returns version 1 and
locktime 0, one record per input in insertion order (txid, vout, the
unlocking script as lowercase hex or the empty string when unsigned, and
the sequence), and one record per output in insertion order; two calls on
the same state are identical, and the builder state is not mutated (the
embedding is functional exactly because the Python method only reads
`self`). The concrete conjuncts exercise an unsigned input (empty script
field) and a signed input (lowercase hex rendering). -/
theorem build_spec :
    (∀ b : BitcoinTransactionBuilder,
      build b =
        { version := 1,
          inputs := b.inputs.map fun inp =>
            { txid := inp.txid,
              vout := inp.vout,
              script_sig := match inp.script_sig with
                | some bs => bytesHex bs
                | none => "",
              sequence := inp.sequence },
          outputs := b.outputs.map fun o => ⟨o.amount, o.script_pubkey⟩,
          locktime := 0 }) ∧
    (∀ b : BitcoinTransactionBuilder, build b = build b) ∧
    (build (add_output (add_input newBuilder utxoA) 50000 ("spk"))).inputs =
      [⟨"abc123def456", 0, "", 4294967295⟩] ∧
    (build (add_output (add_input newBuilder utxoA) 50000 ("spk"))).outputs =
      [⟨50000, "spk"⟩] ∧
    (build { newBuilder with
      inputs := [⟨"t", 0, some [171, 1], 4294967295⟩] }).inputs =
      [⟨"t", 0, "ab01", 4294967295⟩] := by
  refine ⟨fun b => rfl, fun b => rfl, ?_, ?_, ?_⟩ <;> decide

/-! ## Lemmas about Python index resolution and list update -/

/-- A non-negative index below the length resolves to itself. -/
theorem pyIndex_ofNat {len i : Nat} (h : i < len) : pyIndex len (i : Int) = some i := by
  simp only [pyIndex]
  rw [if_neg (show ¬ ((i : Int) < 0) by omega)]
  rw [if_pos (show (0 : Int) ≤ (i : Int) ∧ (i : Int) < (len : Int) by omega)]
  simp

/-- A negative index at least `-len` resolves to `len + i`. -/
theorem pyIndex_neg {len : Nat} {i : Int} (h1 : i < 0) (h2 : -(len : Int) ≤ i) :
    pyIndex len i = some (i + len).toNat := by
  simp only [pyIndex]
  rw [if_pos h1]
  rw [if_pos (show (0 : Int) ≤ i + len ∧ i + (len : Int) < len by omega)]

/-- Out-of-range indices (in the Python sense: at least `len` or below
`-len`) fail to resolve. -/
theorem pyIndex_none {len : Nat} {i : Int}
    (h : (len : Int) ≤ i ∨ i < -(len : Int)) : pyIndex len i = none := by
  simp only [pyIndex]
  rcases h with h | h
  · rw [if_neg (show ¬ (i < 0) by omega)]
    rw [if_neg (show ¬ ((0 : Int) ≤ i ∧ i < (len : Int)) by omega)]
  · rw [if_pos (show i < 0 by omega)]
    rw [if_neg (show ¬ ((0 : Int) ≤ i + len ∧ i + (len : Int) < len) by omega)]

/-- A resolved index is below the length. -/
theorem pyIndex_lt {len : Nat} {i : Int} {j : Nat} (h : pyIndex len i = some j) :
    j < len := by
  simp only [pyIndex] at h
  split_ifs at h with h1 h2
  all_goals simp only [Option.some.injEq] at h
  all_goals omega

/-- Reading back the updated position of a list. -/
theorem getD_set_eq {α : Type} [Inhabited α] :
    ∀ (l : List α) (i : Nat) (a : α), i < l.length →
      (l.set i a).getD i default = a := by
  intro l
  induction l with
  | nil => intro i a h; simp at h
  | cons x rest ih =>
    intro i a h
    cases i with
    | zero => rfl
    | succ k => exact ih k a (by simpa using h)

/-- Reading any other position of the updated list. -/
theorem getD_set_ne {α : Type} [Inhabited α] :
    ∀ (l : List α) (i j : Nat) (a : α), j ≠ i →
      (l.set i a).getD j default = l.getD j default := by
  intro l
  induction l with
  | nil => intro i j a _; simp
  | cons x rest ih =>
    intro i j a h
    cases i with
    | zero =>
      cases j with
      | zero => exact absurd rfl h
      | succ k => rfl
    | succ k =>
      cases j with
      | zero => rfl
      | succ m => exact ih k m a (by omega)

/-- Writing back the value already stored leaves the list unchanged. -/
theorem set_getD_self {α : Type} [Inhabited α] :
    ∀ (l : List α) (i : Nat), i < l.length → l.set i (l.getD i default) = l := by
  intro l
  induction l with
  | nil => intro i h; simp at h
  | cons x rest ih =>
    intro i h
    cases i with
    | zero => rfl
    | succ k => simpa [List.set] using ih k (by simpa using h)

/-! ## The digest serialization and the unlocking script, named -/

/-- The byte sequence `create_signature_hash` double-hashes for input `j`:
little-endian version 1, the 1-byte input count, the UTF-8 txid bytes of
input `j`, its little-endian vout, and the 1-byte output count. -/
def digestMsg (b : BitcoinTransactionBuilder) (j : Nat) : List Nat :=
  [1, 0, 0, 0] ++ [b.inputs.length] ++
  strEncode (b.inputs.getD j default).txid ++
  packU32Bytes (b.inputs.getD j default).vout ++ [b.outputs.length]

/-- The unlocking script `sign_input` stores for input `j`:
`[len(signature)] ++ signature ++ [len(pubkey)] ++ pubkey`, where the
signature is the DER encoding followed by the 1-byte sighash type. -/
def scriptFor (E : ECDSA) (b : BitcoinTransactionBuilder) (j : Nat)
    (key : List Nat) (sht : Nat) : List Nat :=
  let d := sha256 (sha256 (digestMsg b j))
  let signature := E.sign_digest key d ++ [sht]
  [signature.length] ++ signature ++ [(E.pubkey key).length] ++ E.pubkey key

/-- Success shape of `create_signature_hash`: when both counts fit in one
byte, the index resolves, and the vout fits in 32 bits, the digest is the
double SHA-256 of the serialized message. -/
theorem create_signature_hash_ok (b : BitcoinTransactionBuilder) (i : Int)
    (j : Nat) (sht : Nat)
    (hj : pyIndex b.inputs.length i = some j)
    (hn : b.inputs.length ≤ 255) (hm : b.outputs.length ≤ 255)
    (hv : (b.inputs.getD j default).vout < 4294967296) :
    create_signature_hash b i sht = Except.ok (sha256 (sha256 (digestMsg b j))) := by
  simp only [create_signature_hash, packU32, natToByte, hj, digestMsg, packU32Bytes, hn, hm, hv,
    if_pos, if_true]
  norm_num

/-! ## Claim theorems: digest -/

/-- C3: for any builder whose input and output counts fit in one byte and
whose addressed input has a 32-bit vout, at every valid input index the
signature digest equals SHA-256 applied twice to the concatenation of the
4-byte little-endian version 1, the 1-byte input count, the selected
input's txid bytes, its 4-byte little-endian vout, and the 1-byte output
count; every produced digest is 32 bytes; and two calls on the same state
agree (the embedding is pure, as is the Python method, which only reads
`self`). -/
theorem create_signature_hash_spec (b : BitcoinTransactionBuilder) (i : Nat)
    (sht : Nat)
    (hi : i < b.inputs.length) (hn : b.inputs.length ≤ 255)
    (hm : b.outputs.length ≤ 255)
    (hv : (b.inputs.getD i default).vout < 4294967296) :
    create_signature_hash b (i : Int) sht =
      Except.ok (sha256 (sha256
        ([1, 0, 0, 0] ++ [b.inputs.length] ++
         strEncode (b.inputs.getD i default).txid ++
         packU32Bytes (b.inputs.getD i default).vout ++
         [b.outputs.length]))) ∧
    (∀ d, create_signature_hash b (i : Int) sht = Except.ok d → d.length = 32) ∧
    create_signature_hash b (i : Int) sht = create_signature_hash b (i : Int) sht := by
  have hok := create_signature_hash_ok b (i : Int) i sht (pyIndex_ofNat hi) hn hm hv
  refine ⟨by simpa [digestMsg] using hok, ?_, rfl⟩
  intro d hd
  rw [hok] at hd
  injection hd with h
  rw [← h]
  exact sha256_length _

/-- The builder fixture used by concrete witnesses: one input from the
first test UTXO and one 50000-satoshi output. -/
def bC3 : BitcoinTransactionBuilder :=
  add_output (add_input newBuilder utxoA) 50000 ("spk")

/-- C3 witness: the digest theorem applied to the one-input one-output
fixture at index 0. -/
theorem create_signature_hash_spec_witness :
    create_signature_hash bC3 ((0 : Nat) : Int) 1 =
      Except.ok (sha256 (sha256
        ([1, 0, 0, 0] ++ [bC3.inputs.length] ++
         strEncode (bC3.inputs.getD 0 default).txid ++
         packU32Bytes (bC3.inputs.getD 0 default).vout ++
         [bC3.outputs.length]))) ∧
    (∀ d, create_signature_hash bC3 ((0 : Nat) : Int) 1 = Except.ok d →
      d.length = 32) ∧
    create_signature_hash bC3 ((0 : Nat) : Int) 1 =
      create_signature_hash bC3 ((0 : Nat) : Int) 1 :=
  create_signature_hash_spec bC3 0 1 (by decide) (by decide) (by decide) (by decide)

/-! ## Claim theorems: signing -/

/-- A transaction input with its unlocking script replaced. -/
def withScript (inp : TransactionInput) (script : List Nat) : TransactionInput :=
  { inp with script_sig := some script }

/-- The builder after storing an unlocking script on input `j`. -/
def signedAt (b : BitcoinTransactionBuilder) (j : Nat) (script : List Nat) :
    BitcoinTransactionBuilder :=
  { b with inputs := b.inputs.set j (withScript (b.inputs.getD j default) script) }

/-- Success shape of `sign_input`: with a resolvable index, encodable
counts, a 32-bit vout, a 32-byte key, an encodable sighash type, and
signature/public-key lengths below 256, signing succeeds and stores the
length-prefixed unlocking script on the resolved input. -/
theorem sign_input_ok (E : ECDSA) (b : BitcoinTransactionBuilder) (i : Int)
    (j : Nat) (key : List Nat) (sht : Nat)
    (hj : pyIndex b.inputs.length i = some j)
    (hn : b.inputs.length ≤ 255) (hm : b.outputs.length ≤ 255)
    (hv : (b.inputs.getD j default).vout < 4294967296)
    (hk : key.length = 32) (hsht : sht ≤ 255)
    (hsig : (E.sign_digest key (sha256 (sha256 (digestMsg b j)))).length + 1 ≤ 255)
    (hpk : (E.pubkey key).length ≤ 255) :
    sign_input E b i key sht =
      Except.ok (signedAt b j (scriptFor E b j key sht)) := by
  have hok := create_signature_hash_ok b i j sht hj hn hm hv
  have hlen : (E.sign_digest key (sha256 (sha256 (digestMsg b j))) ++ [sht]).length ≤ 255 := by
    simp only [List.length_append, List.length_cons, List.length_nil]
    omega
  simp only [sign_input, hok, hk, bytesSingleton, hsht, natToByte, hlen, hpk, hj,
    scriptFor, if_pos, if_true]
  rfl

/-- Reading back the input that was just signed. -/
theorem signedAt_getD (b : BitcoinTransactionBuilder) (j : Nat) (s : List Nat)
    (h : j < b.inputs.length) :
    (signedAt b j s).inputs.getD j default = withScript (b.inputs.getD j default) s :=
  getD_set_eq _ _ _ h

/-- Signing one input does not change the input count. -/
theorem signedAt_length (b : BitcoinTransactionBuilder) (j : Nat) (s : List Nat) :
    (signedAt b j s).inputs.length = b.inputs.length := by
  simp [signedAt, List.length_set]

/-- The digest serialization ignores unlocking scripts, so it is invariant
under signing. -/
theorem signedAt_digestMsg (b : BitcoinTransactionBuilder) (j : Nat) (s : List Nat)
    (h : j < b.inputs.length) :
    digestMsg (signedAt b j s) j = digestMsg b j := by
  simp only [digestMsg, signedAt_length, signedAt_getD b j s h]
  rfl

/-- Hence the unlocking script to be stored is also invariant under a
previous signing of the same input. -/
theorem signedAt_scriptFor (E : ECDSA) (b : BitcoinTransactionBuilder) (j : Nat)
    (key : List Nat) (sht : Nat) (s : List Nat) (h : j < b.inputs.length) :
    scriptFor E (signedAt b j s) j key sht = scriptFor E b j key sht := by
  simp only [scriptFor, signedAt_digestMsg b j s h]

/-- Overwriting the same script twice is the same as writing it once. -/
theorem signedAt_idem (b : BitcoinTransactionBuilder) (j : Nat) (s : List Nat)
    (h : j < b.inputs.length) :
    signedAt (signedAt b j s) j s = signedAt b j s := by
  simp only [signedAt, withScript, getD_set_eq _ _ _ h, List.set_set]

/-- C4: signing a valid index stores exactly the length-prefixed script
`[len(signature)][signature][len(pubkey)][pubkey]` — the signature being
the DER bytes followed by the 1-byte sighash type — on input `i`; every
other input, the outputs, the fee rate, and the change address are
unchanged; and re-signing the same input reproduces the same builder
(the script is overwritten, not appended). Quantified over every
signature backend `E`; the length hypotheses mirror the spec's 255-byte
encodability cap. -/
theorem sign_input_spec (E : ECDSA) (b : BitcoinTransactionBuilder) (i : Nat)
    (key : List Nat) (sht : Nat)
    (hi : i < b.inputs.length) (hn : b.inputs.length ≤ 255)
    (hm : b.outputs.length ≤ 255)
    (hv : (b.inputs.getD i default).vout < 4294967296)
    (hk : key.length = 32) (hsht : sht ≤ 255)
    (hsig : (E.sign_digest key (sha256 (sha256 (digestMsg b i)))).length + 1 ≤ 255)
    (hpk : (E.pubkey key).length ≤ 255) :
    ∃ b', sign_input E b (i : Int) key sht = Except.ok b' ∧
      b'.inputs.getD i default =
        withScript (b.inputs.getD i default) (scriptFor E b i key sht) ∧
      (∀ j, j ≠ i → b'.inputs.getD j default = b.inputs.getD j default) ∧
      b'.inputs.length = b.inputs.length ∧
      b'.outputs = b.outputs ∧
      b'.fee_rate = b.fee_rate ∧
      b'.change_address = b.change_address ∧
      sign_input E b' (i : Int) key sht = Except.ok b' := by
  have h1 := sign_input_ok E b (i : Int) i key sht (pyIndex_ofNat hi) hn hm hv hk hsht hsig hpk
  have h2 := sign_input_ok E (signedAt b i (scriptFor E b i key sht)) (i : Int) i key sht
    (by rw [signedAt_length]; exact pyIndex_ofNat hi)
    (by rw [signedAt_length]; exact hn)
    hm
    (by rw [signedAt_getD b i _ hi]; exact hv)
    hk hsht
    (by rw [signedAt_digestMsg b i _ hi]; exact hsig)
    hpk
  refine ⟨signedAt b i (scriptFor E b i key sht), h1, signedAt_getD b i _ hi,
    fun j hj => getD_set_ne _ _ _ _ hj, signedAt_length b i _, rfl, rfl, rfl, ?_⟩
  rw [h2, signedAt_scriptFor E b i key sht _ hi, signedAt_idem b i _ hi]

/-- A concrete stand-in for the external signing library, used in closed
witnesses: a fixed 3-byte signature and a fixed 64-byte public key. -/
def dummyECDSA : ECDSA := ⟨fun _ _ => [1, 2, 3], fun _ => List.replicate 64 7⟩

/-- A well-formed 32-byte private key for witnesses. -/
def keyBytes : List Nat := List.replicate 32 1

/-- C4 witness: the signing theorem applied to the one-input one-output
fixture at index 0 with the stand-in backend. -/
theorem sign_input_spec_witness :
    ∃ b', sign_input dummyECDSA bC3 ((0 : Nat) : Int) keyBytes 1 = Except.ok b' ∧
      b'.inputs.getD 0 default =
        withScript (bC3.inputs.getD 0 default) (scriptFor dummyECDSA bC3 0 keyBytes 1) ∧
      (∀ j, j ≠ 0 → b'.inputs.getD j default = bC3.inputs.getD j default) ∧
      b'.inputs.length = bC3.inputs.length ∧
      b'.outputs = bC3.outputs ∧
      b'.fee_rate = bC3.fee_rate ∧
      b'.change_address = bC3.change_address ∧
      sign_input dummyECDSA b' ((0 : Nat) : Int) keyBytes 1 = Except.ok b' :=
  sign_input_spec dummyECDSA bC3 0 keyBytes 1 (by decide) (by decide) (by decide)
    (by decide) (by decide) (by decide) (by decide) (by decide)

/-- C9: a negative index `i` with `-n ≤ i < 0` is resolved Python-style:
the call agrees with the call at `i + n`, succeeds, and stores the
unlocking script on input `(i + n)`. -/
theorem sign_input_neg_index_spec (E : ECDSA) (b : BitcoinTransactionBuilder)
    (i : Int) (key : List Nat) (sht : Nat)
    (hneg : i < 0) (hge : -(b.inputs.length : Int) ≤ i)
    (hn : b.inputs.length ≤ 255) (hm : b.outputs.length ≤ 255)
    (hv : (b.inputs.getD (i + b.inputs.length).toNat default).vout < 4294967296)
    (hk : key.length = 32) (hsht : sht ≤ 255)
    (hsig : (E.sign_digest key
      (sha256 (sha256 (digestMsg b (i + b.inputs.length).toNat)))).length + 1 ≤ 255)
    (hpk : (E.pubkey key).length ≤ 255) :
    sign_input E b i key sht = sign_input E b (i + b.inputs.length) key sht ∧
    sign_input E b i key sht =
      Except.ok (signedAt b (i + b.inputs.length).toNat
        (scriptFor E b (i + b.inputs.length).toNat key sht)) ∧
    (∀ b', sign_input E b i key sht = Except.ok b' →
      (b'.inputs.getD (i + b.inputs.length).toNat default).script_sig =
        some (scriptFor E b (i + b.inputs.length).toNat key sht)) := by
  have hj1 : pyIndex b.inputs.length i = some (i + b.inputs.length).toNat :=
    pyIndex_neg hneg hge
  have hjlt : (i + (b.inputs.length : Int)).toNat < b.inputs.length := by omega
  have hj2 : pyIndex b.inputs.length (i + b.inputs.length) =
      some (i + b.inputs.length).toNat := by
    have h := pyIndex_ofNat hjlt
    rwa [show (((i + (b.inputs.length : Int)).toNat : Int)) = i + b.inputs.length
      by omega] at h
  have h1 := sign_input_ok E b i _ key sht hj1 hn hm hv hk hsht hsig hpk
  have h2 := sign_input_ok E b (i + b.inputs.length) _ key sht hj2 hn hm hv hk hsht hsig hpk
  refine ⟨h1.trans h2.symm, h1, ?_⟩
  intro b' hb'
  rw [h1] at hb'
  injection hb' with hb'
  rw [← hb', signedAt_getD b _ _ hjlt]
  rfl

/-- C9 witness: signing index −1 of the one-input fixture succeeds and
signs input 0. -/
theorem sign_input_neg_index_witness :
    sign_input dummyECDSA bC3 (-1) keyBytes 1 =
      sign_input dummyECDSA bC3 (-1 + bC3.inputs.length) keyBytes 1 ∧
    sign_input dummyECDSA bC3 (-1) keyBytes 1 =
      Except.ok (signedAt bC3 ((-1 : Int) + bC3.inputs.length).toNat
        (scriptFor dummyECDSA bC3 ((-1 : Int) + bC3.inputs.length).toNat keyBytes 1)) ∧
    (∀ b', sign_input dummyECDSA bC3 (-1) keyBytes 1 = Except.ok b' →
      (b'.inputs.getD ((-1 : Int) + bC3.inputs.length).toNat default).script_sig =
        some (scriptFor dummyECDSA bC3 ((-1 : Int) + bC3.inputs.length).toNat keyBytes 1)) :=
  sign_input_neg_index_spec dummyECDSA bC3 (-1) keyBytes 1 (by decide) (by decide)
    (by decide) (by decide) (by decide) (by decide) (by decide) (by decide) (by decide)

/-- C7, counterexample to the claim as stated: −1 lies outside the range
[0, n) the claim quantifies over, yet signing the one-input fixture at
index −1 does not fail with an index error — Python resolves negative
indices from the end of the list, so the call succeeds. -/
theorem sign_input_neg_valid_cex :
    sign_input dummyECDSA bC3 (-1) keyBytes 1 ≠
      Except.error BuilderError.indexOutOfRange ∧
    (sign_input dummyECDSA bC3 (-1) keyBytes 1).isOk = true := by
  have h := sign_input_ok dummyECDSA bC3 (-1) 0 keyBytes 1 (by decide) (by decide)
    (by decide) (by decide) (by decide) (by decide) (by decide) (by decide)
  constructor
  · rw [h]
    simp
  · rw [h]
    rfl

/-- C7 (amended: "outside the valid range" must be read Python-style —
the failing indices are those with `i ≥ n` or `i < -n`, since negative
indices down to `-n` are valid and resolved from the end; and the input
count must itself fit the 1-byte encoding, which the count serialization
performs before indexing): for indices out of range in that sense,
`sign_input` fails with `IndexOutOfRange`; the error is raised while
computing the digest, before the key check and before any script
assignment, so no builder state is modified (the embedding returns only
the error, and the Python method raises before its single mutation). -/
theorem sign_input_out_of_range (E : ECDSA) (b : BitcoinTransactionBuilder)
    (i : Int) (key : List Nat) (sht : Nat)
    (hn : b.inputs.length ≤ 255)
    (hout : (b.inputs.length : Int) ≤ i ∨ i < -(b.inputs.length : Int)) :
    sign_input E b i key sht = Except.error BuilderError.indexOutOfRange := by
  have hnone := pyIndex_none hout
  simp only [sign_input, create_signature_hash, packU32, natToByte, hnone, hn,
    if_pos, if_true]
  norm_num

/-- C7 witness: index 5 against the one-input fixture. -/
theorem sign_input_out_of_range_witness :
    sign_input dummyECDSA bC3 5 keyBytes 1 =
      Except.error BuilderError.indexOutOfRange :=
  sign_input_out_of_range dummyECDSA bC3 5 keyBytes 1 (by decide) (by decide)

/-- When either count exceeds one byte, the digest serialization fails:
with more than 255 inputs the input-count byte overflows before anything
else; with more than 255 outputs the computation fails at the latest at
the output-count byte (possibly earlier, at the index or the vout). -/
theorem create_signature_hash_err (b : BitcoinTransactionBuilder) (i : Int)
    (sht : Nat) (h : 255 < b.inputs.length ∨ 255 < b.outputs.length) :
    ∃ e, create_signature_hash b i sht = Except.error e := by
  simp only [create_signature_hash, packU32, natToByte]
  rw [if_pos (show (1 : Nat) < 4294967296 by norm_num)]
  by_cases hn : b.inputs.length ≤ 255
  · rw [if_pos hn]
    have hm2 : ¬ b.outputs.length ≤ 255 := by omega
    rcases hp : pyIndex b.inputs.length i with _ | j
    · exact ⟨BuilderError.indexOutOfRange, rfl⟩
    · by_cases hv : (b.inputs.getD j default).vout < 4294967296
      · refine ⟨BuilderError.byteOverflow, ?_⟩
        simp only [List.getD, List.get?_eq_getElem?] at hv
        simp [hv, hm2]
      · refine ⟨BuilderError.structError, ?_⟩
        simp only [List.getD, List.get?_eq_getElem?] at hv
        simp [hv]
  · rw [if_neg hn]
    exact ⟨BuilderError.byteOverflow, rfl⟩

/-- C10: when both the input count and the output count fit in one byte
(and the addressed input exists with a 32-bit vout), the 1-byte count
encodings succeed and `create_signature_hash` returns a digest; when
either count exceeds 255, `create_signature_hash` — and therefore
`sign_input`, which computes the digest first — fails. -/
theorem create_signature_hash_counts (E : ECDSA) (b : BitcoinTransactionBuilder)
    (i : Int) (sht : Nat) (key : List Nat) :
    (∀ j, pyIndex b.inputs.length i = some j →
      b.inputs.length ≤ 255 → b.outputs.length ≤ 255 →
      (b.inputs.getD j default).vout < 4294967296 →
      (create_signature_hash b i sht).isOk = true) ∧
    (255 < b.inputs.length ∨ 255 < b.outputs.length →
      ∃ e, create_signature_hash b i sht = Except.error e) ∧
    (255 < b.inputs.length ∨ 255 < b.outputs.length →
      ∃ e, sign_input E b i key sht = Except.error e) := by
  refine ⟨?_, create_signature_hash_err b i sht, ?_⟩
  · intro j hj hn hm hv
    rw [create_signature_hash_ok b i j sht hj hn hm hv]
    rfl
  · intro h
    obtain ⟨e, he⟩ := create_signature_hash_err b i sht h
    refine ⟨e, ?_⟩
    simp only [sign_input, he]

/-- A builder holding 256 inputs, one past the 1-byte count limit. -/
def bigBuilder : BitcoinTransactionBuilder :=
  { newBuilder with inputs := List.replicate 256 (TransactionInput.ofUTXO utxoA) }

set_option maxRecDepth 10000 in
/-- C10 witness: the count theorem applied to the one-input fixture (the
digest succeeds) and to the 256-input builder (digest and signing both
fail). -/
theorem create_signature_hash_counts_witness :
    (create_signature_hash bC3 0 1).isOk = true ∧
    (∃ e, create_signature_hash bigBuilder 0 1 = Except.error e) ∧
    (∃ e, sign_input dummyECDSA bigBuilder 0 keyBytes 1 = Except.error e) :=
  ⟨(create_signature_hash_counts dummyECDSA bC3 0 1 keyBytes).1 0 (by decide)
      (by decide) (by decide) (by decide),
   (create_signature_hash_counts dummyECDSA bigBuilder 0 1 keyBytes).2.1 (by decide),
   (create_signature_hash_counts dummyECDSA bigBuilder 0 1 keyBytes).2.2 (by decide)⟩
